import Mathlib

/-!
# Verification of the toy-gemm fixed-dimension matrix library

Shallow embedding of `src/include/toy-gemm/matrix.hpp` (namespace
`toy_gemm`).  A `Mat<R, C, T>` stores its elements in a nested
`std::array<std::array<T, C>, R>` member `elems`, row-major.  The element
type is fixed here to the library default `T = int`, modelled as `Int`
(the claims under study do not depend on machine-integer overflow).

Member initializers and the variadic constructor both initialize the
nested-array storage with a braced list of scalars; C++ aggregate
initialization with brace elision fills the elements in row-major order
and value-initializes (zeroes) the rest.  `braceInit` models exactly that.
-/

namespace ToyGemm

/-- `Mat R C` models `toy_gemm::Mat<R, C, int>`; `elems r c` is the element
stored at row `r`, column `c` of the row-major storage. -/
@[ext]
structure Mat (R C : Nat) where
  elems : Fin R → Fin C → Int

/-- Aggregate list-initialization `elems{args...}` of the nested
`std::array<std::array<int, C>, R>` storage.  With brace elision the
supplied scalars fill consecutive row-major positions (`r * C + c`), and
every remaining element is value-initialized to `0`. -/
def braceInit (R C : Nat) (args : List Int) : Fin R → Fin C → Int :=
  fun r c => args.getD (r.1 * C + c.1) 0

/-- The default constructor `Mat()` (`= default`): the storage comes from
the default member initializer `StorageType elems{0}`. -/
def defaultMat (R C : Nat) : Mat R C :=
  ⟨braceInit R C [0]⟩

/-- The SFINAE gate (`std::enable_if_t<ELEM_COUNT == sizeof...(E) ||
sizeof...(E) == 1>`) on the variadic constructor: it participates in
overload resolution only for exactly `R*C` arguments or exactly one. -/
def packCtorEnabled (R C n : Nat) : Prop :=
  n = R * C ∨ n = 1

/-- The variadic constructor `Mat(E&&... e)`, whose entire body is the
member initializer `elems{std::forward<E>(e)...}` — plain aggregate
initialization of the storage with the argument pack.  (Every call site in
the repository satisfies `packCtorEnabled`.) -/
def packInit (R C : Nat) (args : List Int) : Mat R C :=
  ⟨braceInit R C args⟩

/-- Outcome of running the row-wise constructor: either a constructed
matrix, or a failed `assert` — which aborts the process in debug builds
(and is compiled out, leaving undefined behaviour, under `NDEBUG`); in no
build does it throw an exception. -/
inductive CtorResult (α : Type) where
  | ok : α → CtorResult α
  | assertFail : CtorResult α

/-- `make_row`: builds one row by dereferencing `std::next(begin(l), c)`
for `c = 0..C-1` on one initializer list.  It is reached only after the
constructor's `assert` has checked `l.size() == C`, so the default value
of `getD` is never consulted in the `ok` branch. -/
def make_row (C : Nat) (l : List Int) : Fin C → Int :=
  fun c => l.getD c.1 0

/-- The row-wise constructor `Mat(std::initializer_list<E>&&... l)`.
`static_assert(ROW_COUNT == sizeof...(l))` is resolved at compile time and
is taken as the hypothesis `hR`.  At run time the constructor evaluates
`assert((COL_COUNT == l.size()) && ...)` and then `row_wise_init` installs
row `r` from the `r`-th list via `make_row`.  A failed `assert` aborts;
nothing is thrown and no matrix value is produced. -/
def rowWiseCtor (R C : Nat) (ls : List (List Int)) (_hR : ls.length = R) :
    CtorResult (Mat R C) :=
  if ls.all (fun l => C == l.length) then
    CtorResult.ok ⟨fun r c => make_row C (ls.getD r.1 []) c⟩
  else CtorResult.assertFail

/-- Result of a bounds-checked `std::array::at` access: the value, or a
thrown `std::out_of_range`. -/
inductive AtResult (α : Type) where
  | ok : α → AtResult α
  | outOfRange : AtResult α

/-- `std::array<α, n>::at(i)`: yields the element when `i < n` and throws
`std::out_of_range` for every other `i` — the index is never truncated or
wrapped. -/
def arrayAt {α : Type} (n : Nat) (f : Fin n → α) (i : Nat) : AtResult α :=
  if h : i < n then AtResult.ok (f ⟨i, h⟩) else AtResult.outOfRange

/-- Runtime row access `at(r)` / `operator[](r)`: both call `elems.at(r)`. -/
def Mat.atRow {R C : Nat} (M : Mat R C) (r : Nat) : AtResult (Fin C → Int) :=
  arrayAt R M.elems r

/-- Runtime element access `at(r, c)`: `elems.at(r).at(c)` — the row lookup
throws first when `r` is out of range, otherwise the column lookup is
bounds-checked in turn. -/
def Mat.atElem {R C : Nat} (M : Mat R C) (r c : Nat) : AtResult Int :=
  match arrayAt R M.elems r with
  | AtResult.ok row => arrayAt C row c
  | AtResult.outOfRange => AtResult.outOfRange

/-- The `static_assert(COL_COUNT == sizeof...(idx))` inside
`GetCol<Col>::impl`: `get_col` hands it `std::make_index_sequence<R>()`,
so `sizeof...(idx) = R` and the assert demands `C = R` — the instantiation
compiles only for square matrices. -/
def getColCompiles (R C : Nat) : Prop :=
  C = R

/-- `get_col<Col>` via `GetCol<Col>::impl`: materializes the copy
`{elems[0][Col], …, elems[R-1][Col]}` (a `ColType`, modelled as a list of
length `R`).  The hypothesis is `GetCol<Col>::impl`'s `static_assert`,
which must hold for the call to compile. -/
def Mat.get_col {R C : Nat} (M : Mat R C) (col : Fin C)
    (_h : getColCompiles R C) : List Int :=
  (List.finRange R).map (fun i => M.elems i col)

/-- `col_view<Col>` via `GetColView<Col>::impl`: the tuple of `R`
references aliasing column `col`; reading component `i` of the view reads
`elems[i][col]`. -/
def Mat.col_view {R C : Nat} (M : Mat R C) (col : Fin C) : Fin R → Int :=
  fun i => M.elems i col

/-- Assigning a full `R`-tuple `v` through `col_view<col>`: `std::tuple`
assignment writes each referenced element, i.e. `elems[i][col] = v i` for
every `i`, and touches no other entry of the storage. -/
def Mat.col_view_assign {R C : Nat} (M : Mat R C) (col : Fin C) (v : Fin R → Int) :
    Mat R C :=
  ⟨fun r c => if c = col then v r else M.elems r c⟩

/-- `operator==`: the fold `equal` over all rows of the fold
`row_equal_impl` over all columns of element-wise `==`. -/
def Mat.equal {R C : Nat} (A B : Mat R C) : Bool :=
  (List.finRange R).all (fun r =>
    (List.finRange C).all (fun c => A.elems r c == B.elems r c))

/-- `MulImpl::inner_product`: the fold `(e + ...)` over the pack
`this_row[k] * other_col[k]`, `k = 0..C-1`. -/
def inner_product (C : Nat) (this_row other_col : Fin C → Int) : Int :=
  ((List.finRange C).map (fun k => this_row k * other_col k)).sum

/-- `operator*`: `MulImpl::build_mat` concatenates, row by row
(`build_row`), the inner products of each row of the left operand with
each column view of the right operand; the resulting `R*K` scalars are
then fed to the element-wise (positional) constructor of the result. -/
def Mat.mul {R C K : Nat} (A : Mat R C) (B : Mat C K) : Mat R K :=
  packInit R K ((List.finRange R).flatMap (fun i =>
    (List.finRange K).map (fun j => inner_product C (A.elems i) (B.col_view j))))

/-- `transpose` via `transpose_impl`: `std::tuple_cat(col_view<0>(), …,
col_view<C-1>())` flattened into `C*R` scalars and fed to the element-wise
constructor of `Mat<C, R>`. -/
def Mat.transpose {R C : Nat} (M : Mat R C) : Mat C R :=
  packInit C R ((List.finRange C).flatMap (fun j =>
    (List.finRange R).map (M.col_view j)))

/-- `zeros()`: `ThisType{0}`, the single-argument form of the variadic
constructor. -/
def Mat.zeros (R C : Nat) : Mat R C :=
  packInit R C [0]

/-- `fill_diagonal(val)`: the fold writing `elems[i][i] = val` for every
`i` (square matrices only). -/
def Mat.fill_diagonal {N : Nat} (M : Mat N N) (val : Int) : Mat N N :=
  ⟨fun r c => if r = c then val else M.elems r c⟩

/-- `identity()` (square only, enforced by `static_assert`): `Mat<R,R,T>
ret{0};` followed by `ret.fill_diagonal(T{1})`. -/
def Mat.identity (N : Nat) : Mat N N :=
  Mat.fill_diagonal (packInit N N [0]) 1

/-- A braced `{0}` initializer zero-fills: position `0` holds the supplied
`0` and every later position is value-initialized to `0`. -/
theorem getD_singleton_zero : ∀ n : Nat, ([0] : List Int).getD n 0 = 0
  | 0 => rfl
  | _ + 1 => rfl

/-- Indexing `List.finRange` with the value of one of its members. -/
theorem finRange_getElem? {n : Nat} (i : Fin n) :
    (List.finRange n)[i.1]? = some i := by
  simp [List.getElem?_eq_getElem, i.2]

/-- Row-major indexing of a flattened row-of-rows list: position
`i * K + j` of `flatMap (fun a => map (f a) (finRange K)) (finRange R)`
holds `f i j`. -/
theorem flat_getElem? {α : Type} {K : Nat} :
    ∀ {R : Nat} (f : Fin R → Fin K → α) (i : Fin R) (j : Fin K),
      ((List.finRange R).flatMap (fun a => (List.finRange K).map (f a)))[i.1 * K + j.1]?
        = some (f i j) := by
  intro R
  induction R with
  | zero => exact fun _ i _ => absurd i.2 (Nat.not_lt_zero _)
  | succ n ih =>
    intro f i j
    rw [List.finRange_succ_eq_map, List.flatMap_cons, List.flatMap_map]
    cases i using Fin.cases with
    | zero =>
      have h0 : (0 : Fin (n + 1)).1 * K + j.1 = j.1 := by simp
      rw [h0, List.getElem?_append_left (by simp [j.2]), List.getElem?_map,
        finRange_getElem?]
      rfl
    | succ i' =>
      have hle : ((List.finRange K).map (f 0)).length ≤ (Fin.succ i').1 * K + j.1 := by
        simp only [List.length_map, List.length_finRange, Fin.val_succ, Nat.succ_mul]
        omega
      have hidx : (Fin.succ i').1 * K + j.1 - ((List.finRange K).map (f 0)).length
          = i'.1 * K + j.1 := by
        simp only [List.length_map, List.length_finRange, Fin.val_succ, Nat.succ_mul]
        omega
      rw [List.getElem?_append_right hle, hidx]
      exact ih (fun a => f a.succ) i' j

/-- The element-wise constructor stores argument `r * C + c` at `(r, c)`. -/
theorem packInit_elem {R C : Nat} (args : List Int) (r : Fin R) (c : Fin C) :
    (packInit R C args).elems r c = args.getD (r.1 * C + c.1) 0 := rfl

/-- Every element of a default-constructed matrix is zero. -/
theorem defaultMat_elem {R C : Nat} (r : Fin R) (c : Fin C) :
    (defaultMat R C).elems r c = 0 :=
  getD_singleton_zero _

/-- `operator==` is elementwise equality. -/
theorem equal_iff {R C : Nat} (A B : Mat R C) :
    Mat.equal A B = true ↔ ∀ (r : Fin R) (c : Fin C), A.elems r c = B.elems r c := by
  simp [Mat.equal, List.all_eq_true, List.mem_finRange]

/-- Element formula of `operator*`: entry `(i, j)` is the inner product of
row `i` of the left operand with column view `j` of the right operand. -/
theorem mul_elem {R C K : Nat} (A : Mat R C) (B : Mat C K) (i : Fin R) (j : Fin K) :
    (A.mul B).elems i j = inner_product C (A.elems i) (B.col_view j) := by
  have h := flat_getElem? (fun a b => inner_product C (A.elems a) (B.col_view b)) i j
  show ((List.finRange R).flatMap (fun a =>
      (List.finRange K).map (fun b =>
        inner_product C (A.elems a) (B.col_view b)))).getD (i.1 * K + j.1) 0
      = inner_product C (A.elems i) (B.col_view j)
  rw [List.getD_eq_getElem?_getD, h]
  rfl

/-- Element formula of `operator*` as a `Finset` sum over the inner
dimension. -/
theorem mul_elem_sum {R C K : Nat} (A : Mat R C) (B : Mat C K) (i : Fin R) (j : Fin K) :
    (A.mul B).elems i j = ∑ k : Fin C, A.elems i k * B.elems k j := by
  rw [mul_elem, inner_product, ← Fin.sum_univ_def]
  rfl

/-- Element formula of `transpose`. -/
theorem transpose_elem {R C : Nat} (M : Mat R C) (i : Fin C) (j : Fin R) :
    M.transpose.elems i j = M.elems j i := by
  have h := flat_getElem? M.col_view i j
  show ((List.finRange C).flatMap (fun a =>
      (List.finRange R).map (M.col_view a))).getD (i.1 * R + j.1) 0
      = M.elems j i
  rw [List.getD_eq_getElem?_getD, h]
  rfl

/-- Element formula of `identity()`. -/
theorem identity_elem {N : Nat} (r c : Fin N) :
    (Mat.identity N).elems r c = if r = c then 1 else 0 := by
  simp [Mat.identity, Mat.fill_diagonal, packInit, braceInit, getD_singleton_zero]

/-- Claim C1.  The claim says the one-argument form of the variadic
constructor broadcasts its argument to every element.  It does not: the
body is plain aggregate initialization `elems{e}`, so `Mat<2,2,int>(5)`
stores `5` at position `(0,0)` only and value-initializes the remaining
three elements to `0` — contradicting the constructor's own documentation
("uniformly initialize every element of the matrix to e").  This theorem
evaluates the constructor at that failing input. -/
theorem C1_single_arg_is_not_broadcast :
    packCtorEnabled 2 2 ([5] : List Int).length ∧
    (packInit 2 2 [5]).elems 0 0 = 5 ∧
    (packInit 2 2 [5]).elems 0 1 = 0 ∧
    (packInit 2 2 [5]).elems 1 0 = 0 ∧
    (packInit 2 2 [5]).elems 1 1 = 0 ∧
    ¬ (∀ (r c : Fin 2), (packInit 2 2 [5]).elems r c = 5) := by
  unfold packCtorEnabled
  decide

/-- Claim C2.  The claim (and the repository's own test, which does
`ASSERT_THROW(M22({1,2},{3}), std::length_error)`) requires a raised
length-mismatch error.  The constructor instead evaluates an `assert`:
building a 2x2 matrix from the rows `[1,2]` and `[3]` fails that `assert`
(aborting in debug builds, undefined behaviour under `NDEBUG`); no
exception of any kind is thrown.  This theorem evaluates the constructor
at that failing input. -/
theorem C2_short_row_fails_assert_not_error :
    rowWiseCtor 2 2 [[1, 2], [3]] rfl = CtorResult.assertFail := rfl

/-- Claim C3: every element `(i, j)` of `A * B` equals the sum over
`k in [0, C)` of `A[i][k] * B[k][j]` (element type fixed to the default
`int`, under which numeric promotion is the identity). -/
theorem C3_mul_is_inner_product {R C K : Nat} (A : Mat R C) (B : Mat C K)
    (i : Fin R) (j : Fin K) :
    (A.mul B).elems i j = ∑ k : Fin C, A.elems i k * B.elems k j :=
  mul_elem_sum A B i j

/-- Claim C4: `M.transpose()` has type `Mat C R` (visible in the statement
type) and its element at `(i, j)` is `M`'s element at `(j, i)` for all
`i in [0, C)`, `j in [0, R)`. -/
theorem C4_transpose_elem {R C : Nat} (M : Mat R C) (i : Fin C) (j : Fin R) :
    M.transpose.elems i j = M.elems j i :=
  transpose_elem M i j

/-- Claim C5: multiplying a square matrix by `identity()` on either side
gives back the matrix, both as a structural equality and under the
library's `operator==`. -/
theorem C5_identity_is_mul_identity {N : Nat} (M : Mat N N) :
    M.mul (Mat.identity N) = M ∧ (Mat.identity N).mul M = M ∧
    Mat.equal (M.mul (Mat.identity N)) M = true ∧
    Mat.equal ((Mat.identity N).mul M) M = true := by
  have hR : ∀ (i j : Fin N), (M.mul (Mat.identity N)).elems i j = M.elems i j := by
    intro i j
    rw [mul_elem_sum]
    simp [identity_elem, Finset.sum_ite_eq']
  have hL : ∀ (i j : Fin N), ((Mat.identity N).mul M).elems i j = M.elems i j := by
    intro i j
    rw [mul_elem_sum]
    simp [identity_elem, Finset.sum_ite_eq]
  refine ⟨?_, ?_, (equal_iff _ _).mpr hR, (equal_iff _ _).mpr hL⟩
  · ext i j
    exact hR i j
  · ext i j
    exact hL i j

/-- Claim C6: transposing twice gives back the original matrix, both as a
structural equality and under the library's `operator==`. -/
theorem C6_transpose_involution {R C : Nat} (M : Mat R C) :
    M.transpose.transpose = M ∧ Mat.equal M.transpose.transpose M = true := by
  have h : ∀ (i : Fin R) (j : Fin C), M.transpose.transpose.elems i j = M.elems i j := by
    intro i j
    rw [transpose_elem, transpose_elem]
  exact ⟨by ext i j; exact h i j, (equal_iff _ _).mpr h⟩

/-- Claim C7.  The claim says `get_col<K>` is defined for all `R`, `C` and
`K < C`.  It is not: `GetCol<Col>::impl`'s
`static_assert(COL_COUNT == sizeof...(idx))` receives
`make_index_sequence<R>()`, so it demands `C = R` and any call on a
non-square matrix — e.g. `get_col<0>()` on a `Mat<3,2,int>` — fails to
compile, although the returned `ColType` has `R` elements and the spec
requires only `K < C`.  First conjunct: the gate rejects the 3x2
instantiation.  Second conjunct: on the matrices where the call does
compile (square ones), the copy behaves exactly as claimed. -/
theorem C7_get_col_square_only :
    ¬ getColCompiles 3 2 ∧
    ∀ (N : Nat) (M : Mat N N) (col : Fin N),
      (M.get_col col rfl).length = N ∧
      ∀ i : Fin N, (M.get_col col rfl)[i.1]? = some (M.elems i col) := by
  constructor
  · unfold getColCompiles
    decide
  · intro N M col
    constructor
    · simp [Mat.get_col]
    · intro i
      rw [Mat.get_col, List.getElem?_map, finRange_getElem?]
      rfl

/-- Claim C8: a default-constructed matrix has every element equal to
zero, and it equals (structurally and under `operator==`) the
one-argument construction with value `0` — whose argument count satisfies
the constructor's SFINAE gate. -/
theorem C8_default_is_zero {R C : Nat} :
    (∀ (r : Fin R) (c : Fin C), (defaultMat R C).elems r c = 0) ∧
    defaultMat R C = packInit R C [0] ∧
    Mat.equal (defaultMat R C) (packInit R C [0]) = true ∧
    packCtorEnabled R C ([0] : List Int).length := by
    refine ⟨fun r c => defaultMat_elem r c, rfl, ?_, Or.inr rfl⟩
    exact (equal_iff _ _).mpr (fun _ _ => rfl)

/-- Claim C9: runtime row access and runtime element access succeed on
in-range indices, returning the stored row/element, and raise
`std::out_of_range` on every out-of-range index — never truncating or
wrapping. -/
theorem C9_runtime_access_bounds_checked {R C : Nat} (M : Mat R C) (r c : Nat) :
    (∀ h : r < R, M.atRow r = AtResult.ok (M.elems ⟨r, h⟩)) ∧
    (R ≤ r → M.atRow r = AtResult.outOfRange) ∧
    (∀ (h1 : r < R) (h2 : c < C), M.atElem r c = AtResult.ok (M.elems ⟨r, h1⟩ ⟨c, h2⟩)) ∧
    ((R ≤ r ∨ C ≤ c) → M.atElem r c = AtResult.outOfRange) := by
  refine ⟨?_, ?_, ?_, ?_⟩
  · intro h
    simp [Mat.atRow, arrayAt, h]
  · intro h
    simp [Mat.atRow, arrayAt, Nat.not_lt.mpr h]
  · intro h1 h2
    simp [Mat.atElem, arrayAt, h1, h2]
  · intro h
    rcases h with h | h
    · simp [Mat.atElem, arrayAt, Nat.not_lt.mpr h]
    · by_cases hr : r < R
      · simp [Mat.atElem, arrayAt, hr, Nat.not_lt.mpr h]
      · simp [Mat.atElem, arrayAt, hr]

/-- Witness for C9 at concrete inputs: a 2x3 zero matrix, row index 1 in
range, row index 2 out of range, element (1,2) in range, element (1,3)
out of range. -/
theorem C9_runtime_access_bounds_checked_witness :
    (defaultMat 2 3).atRow 1 = AtResult.ok ((defaultMat 2 3).elems ⟨1, Nat.one_lt_two⟩) ∧
    (defaultMat 2 3).atRow 2 = AtResult.outOfRange ∧
    (defaultMat 2 3).atElem 1 2 = AtResult.ok 0 ∧
    (defaultMat 2 3).atElem 1 3 = AtResult.outOfRange := by
  refine ⟨(C9_runtime_access_bounds_checked (defaultMat 2 3) 1 0).1 Nat.one_lt_two,
    (C9_runtime_access_bounds_checked (defaultMat 2 3) 2 0).2.1 (Nat.le_refl 2),
    ?_,
    (C9_runtime_access_bounds_checked (defaultMat 2 3) 1 3).2.2.2 (Or.inr (Nat.le_refl 3))⟩
  have h := (C9_runtime_access_bounds_checked (defaultMat 2 3) 1 2).2.2.1
    (by decide) (by decide)
  rw [defaultMat_elem] at h
  exact h

/-- Claim C10: assigning an `R`-tuple `v` through `col_view<col>` sets the
element at `(i, col)` to `v i` for every `i`, and leaves every element in
every other column unchanged. -/
theorem C10_col_view_assign_frame {R C : Nat} (M : Mat R C) (col : Fin C)
    (v : Fin R → Int) :
    (∀ i : Fin R, (M.col_view_assign col v).elems i col = v i) ∧
    (∀ (r : Fin R) (c : Fin C), c ≠ col →
      (M.col_view_assign col v).elems r c = M.elems r c) := by
  constructor
  · intro i
    simp [Mat.col_view_assign]
  · intro r c h
    simp [Mat.col_view_assign, h]

/-- Witness for C10, mirroring the repository's own test: writing zeros
through column view 1 of `{1,2,3,4}` gives `{1,0,3,0}`; column 0 is
untouched. -/
theorem C10_col_view_assign_frame_witness :
    ((packInit 2 2 [1, 2, 3, 4]).col_view_assign 1 (fun _ => 0)).elems 0 1 = 0 ∧
    ((packInit 2 2 [1, 2, 3, 4]).col_view_assign 1 (fun _ => 0)).elems 0 0 = 1 ∧
    ((packInit 2 2 [1, 2, 3, 4]).col_view_assign 1 (fun _ => 0)).elems 1 0 = 3 := by
  refine ⟨(C10_col_view_assign_frame (packInit 2 2 [1, 2, 3, 4]) 1 (fun _ => 0)).1 0,
    ?_, ?_⟩
  · have h := (C10_col_view_assign_frame (packInit 2 2 [1, 2, 3, 4]) 1 (fun _ => 0)).2
      0 0 (by decide)
    rw [h]
    rfl
  · have h := (C10_col_view_assign_frame (packInit 2 2 [1, 2, 3, 4]) 1 (fun _ => 0)).2
      1 0 (by decide)
    rw [h]
    rfl

end ToyGemm
